import Mathlib

/-!
Verification of `ocr_to_json.py` (gracie-exam-prep).

The Python source is shallowly embedded below.  Strings are Lean `String`s
(lists of Unicode scalar values, matching Python's view of `str` as a
sequence of code points); Python's `str.strip`, `str.splitlines`,
`str.lower`, `str.startswith`, slicing and `" ".join` are modelled
character-by-character.  The filesystem and the OCR engine are external
collaborators and are modelled as explicit oracles (`FS`, an optional OCR
function); `sorted(...)` over `pathlib.Path` objects is modelled as a
sort by lexicographic comparison of the code points of the rendered path
string, the comparison current CPython uses for POSIX paths.
-/

/-! ## Definitions: embedding of the program -/

/-- Code points of the characters `str.strip()` removes (Python's
whitespace set). -/
def pySpaceCodes : List Nat :=
  [0x20, 0x9, 0xa, 0xb, 0xc, 0xd, 0x1c, 0x1d, 0x1e, 0x1f, 0x85, 0xa0,
   0x1680, 0x2000, 0x2001, 0x2002, 0x2003, 0x2004, 0x2005, 0x2006, 0x2007,
   0x2008, 0x2009, 0x200a, 0x2028, 0x2029, 0x202f, 0x205f, 0x3000]

def pySpace (c : Char) : Bool := pySpaceCodes.contains c.toNat

/-- Python `str.strip()`: remove leading and trailing whitespace. -/
def pyStrip (s : String) : String :=
  ⟨((s.data.dropWhile pySpace).reverse.dropWhile pySpace).reverse⟩

/-- Code points of the line boundaries recognized by `str.splitlines()`. -/
def lineBoundaryCodes : List Nat :=
  [0xa, 0xd, 0xb, 0xc, 0x1c, 0x1d, 0x1e, 0x85, 0x2028, 0x2029]

def lineBoundary (c : Char) : Bool := lineBoundaryCodes.contains c.toNat

/-- Python `str.splitlines()` on the character list: split at line
boundaries, treating `"\r\n"` as a single boundary, with no empty final
line after a trailing boundary. -/
def splitlinesList : List Char → List (List Char)
  | [] => []
  | '\x0d' :: '\n' :: cs => [] :: splitlinesList cs
  | c :: cs =>
    if lineBoundary c then [] :: splitlinesList cs
    else
      match splitlinesList cs with
      | [] => [[c]]
      | l :: ls => (c :: l) :: ls

def splitlines (s : String) : List String := (splitlinesList s.data).map (fun l => ⟨l⟩)

/-- ASCII lowercasing, applied character by character.  Python's
`str.lower()` agrees with this on every character that can influence the
marker comparisons performed by the splitter (the markers are ASCII). -/
def lowerChar (c : Char) : Char :=
  if 65 ≤ c.toNat && c.toNat ≤ 90 then Char.ofNat (c.toNat + 32) else c

def strLower (s : String) : String := ⟨s.data.map lowerChar⟩

/-- Python `s.startswith(m)` on character lists. -/
def startswithList : List Char → List Char → Bool
  | _, [] => true
  | [], _ :: _ => false
  | c :: cs, m :: ms => m == c && startswithList cs ms

/-- Python `s.startswith(m)`. -/
def startswith (s m : String) : Bool := startswithList s.data m.data

/-- Python `s[n:]`: drop the first `n` characters. -/
def strDrop (s : String) (n : Nat) : String := ⟨s.data.drop n⟩

/-- Python `" ".join(ls)`. -/
def joinSp (ls : List String) : String := ⟨List.intercalate [' '] (ls.map String.data)⟩

/-- List-level view of `pyStrip`. -/
def stripL (l : List Char) : List Char :=
  ((l.dropWhile pySpace).reverse.dropWhile pySpace).reverse

def answer_markers : List String := ["answer:", "ans:", "a:"]

def question_markers : List String := ["question:", "q:", "q."]

/-- Inner loop of the scan: the first answer marker (in priority order)
that the given lower-cased line starts with. -/
def findAnswerMarker (lower_line : String) : Option String :=
  answer_markers.find? (fun marker => startswith lower_line marker)

/-- Outer loop of the scan: the first index whose line starts with an
answer marker, together with the marker that matched there. -/
def findAnswerIdx : List String → Option (Nat × String)
  | [] => none
  | l :: rest =>
    match findAnswerMarker l with
    | some m => some (0, m)
    | none =>
      match findAnswerIdx rest with
      | some (i, m) => some (i + 1, m)
      | none => none

/-- The non-empty stripped lines of the text:
`[line.strip() for line in text.splitlines() if line.strip()]`. -/
def procLines (text : String) : List String :=
  ((splitlines text).map pyStrip).filter (fun l => !(l == ""))

/-- Embedding of `split_question_answer` from `ocr_to_json.py`. -/
def split_question_answer (text : String) : String × String :=
  let lines := procLines text
  if lines.isEmpty then ("", "")
  else
    match findAnswerIdx (lines.map strLower) with
    | some (idx, marker) =>
      let answer_first_line := pyStrip (strDrop (lines.getD idx "") marker.length)
      let answer_parts :=
        (if answer_first_line == "" then [] else [answer_first_line]) ++ lines.drop (idx + 1)
      (pyStrip (joinSp (lines.take idx)), pyStrip (joinSp answer_parts))
    | none =>
      if lines.length > 1 then
        let question_line := lines.getD 0 ""
        let q :=
          match question_markers.find? (fun marker => startswith (strLower question_line) marker) with
          | some marker =>
            let trimmed := pyStrip (strDrop question_line marker.length)
            if trimmed == "" then question_line else trimmed
          | none => question_line
        (q, pyStrip (joinSp (lines.drop 1)))
      else (lines.getD 0 "", "")

/-- Strings the splitter may return: fixed by `pyStrip` and free of line
boundaries. -/
def GoodStr (s : String) : Prop :=
  pyStrip s = s ∧ ∀ c ∈ s.data, lineBoundary c = false

def IMAGE_EXTENSIONS : List String := [".png", ".jpg", ".jpeg", ".tiff", ".bmp", ".gif"]

/-- Final path component (the part after the last `/`), as `pathlib`'s
`Path.name`. -/
def pathFinalName (p : String) : List Char :=
  (p.data.reverse.takeWhile (fun c => !(c == '/'))).reverse

/-- Embedding of `pathlib`'s `Path.suffix`: the extension of the final
component, i.e. the segment from its last dot onward, empty when the
final component has no dot, starts with its only dot, or ends with the
dot. -/
def pathSuffix (p : String) : String :=
  let rev := (pathFinalName p).reverse
  let ext := rev.takeWhile (fun c => !(c == '.'))
  match rev.dropWhile (fun c => !(c == '.')) with
  | '.' :: rest => if rest.isEmpty || ext.isEmpty then "" else ⟨'.' :: ext.reverse⟩
  | _ => ""

/-- Extension check performed by every branch of the collector:
`path.suffix.lower() in IMAGE_EXTENSIONS`. -/
def hasImageExtension (p : String) : Bool :=
  IMAGE_EXTENSIONS.contains (strLower (pathSuffix p))

/-- Comparison current CPython uses to order POSIX `pathlib.Path`
objects: lexicographic, by code point, on the rendered path string. -/
def pathLe (a b : String) : Prop := a.data ≤ b.data

instance : DecidableRel pathLe := fun a b => inferInstanceAs (Decidable (a.data ≤ b.data))

instance : IsTotal String pathLe := ⟨fun a b => le_total a.data b.data⟩

instance : IsTrans String pathLe := ⟨fun _ _ _ h1 h2 => le_trans (α := List Char) h1 h2⟩

/-- Python's `sorted(...)` over paths. -/
def pySorted (ps : List String) : List String := List.insertionSort pathLe ps

/-- Filesystem oracle: the collaborator interfaces `collect_image_paths`
consults.  `rglob d` is the enumeration `Path(d).rglob("*")` returns (in
whatever order the OS yields entries; the code sorts it), `glob pat` is
`Path().glob(pat)` likewise. -/
structure FS where
  is_file : String → Bool
  is_dir : String → Bool
  rglob : String → List String
  glob : String → List String

/-- Embedding of `collect_image_paths` from `ocr_to_json.py`. -/
def collect_image_paths (fs : FS) (inputs : List String) : List String :=
  inputs.flatMap (fun raw =>
    if fs.is_file raw && hasImageExtension raw then [raw]
    else if fs.is_dir raw then (pySorted (fs.rglob raw)).filter hasImageExtension
    else (pySorted (fs.glob raw)).filter hasImageExtension)

/-- Generic insertion of an element into a list sorted by a Boolean
comparison. -/
def insertByLe {α : Type} (le : α → α → Bool) (a : α) : List α → List α
  | [] => [a]
  | b :: bs => if le a b then a :: b :: bs else b :: insertByLe le a bs

/-- Generic stable insertion sort by a Boolean comparison. -/
def sortByLe {α : Type} (le : α → α → Bool) : List α → List α
  | [] => []
  | a :: as => insertByLe le a (sortByLe le as)

/-- Lexicographic comparison of paths viewed as sequences of components,
with components compared by code point. -/
def compLe : List String → List String → Bool
  | [], _ => true
  | _ :: _, [] => false
  | a :: as, b :: bs => if a == b then compLe as bs else decide (a.data < b.data)

/-- Modelled from the spec: the order §4.1 prescribes for the directory
branch — "recursively enumerate all entries reachable under it, visiting
in lexicographic path order", with "directory traversals ...
lexicographically sorted at each recursion level"; equivalently, the
entries (as component sequences relative to the scanned directory)
ordered by lexicographic comparison of their component sequences. -/
def specDirOrder (entries : List (List String)) : List (List String) :=
  sortByLe compLe entries

/-- Render a path given as components under a root directory. -/
def renderPath (root : String) (comps : List String) : String :=
  String.intercalate "/" (root :: comps)

/-- Entries (relative component sequences) of a concrete directory `d`
holding a subdirectory `scan`, a file `scan/b.png` inside it, and a
sibling file `scan-1.png`. -/
def scanTreeEntries : List (List String) := [["scan"], ["scan", "b.png"], ["scan-1.png"]]

/-- Filesystem oracle realizing `scanTreeEntries` under directory `d`. -/
def scanFS : FS :=
  ⟨fun p => p == "d/scan/b.png" || p == "d/scan-1.png",
   fun p => p == "d" || p == "d/scan",
   fun p => if p == "d" then scanTreeEntries.map (renderPath "d") else [],
   fun _ => []⟩

/-- Filesystem with a directory `d` whose only entry `d/x.png` is itself
a directory (a directory named like an image). -/
def dirNamedLikeImageFS : FS :=
  ⟨fun _ => false,
   fun p => p == "d" || p == "d/x.png",
   fun p => if p == "d" then ["d/x.png"] else [],
   fun _ => []⟩

/-- An available OCR engine: image path and language code to recognized
text.  Image loading and grayscale conversion are absorbed into the
oracle. -/
def OcrFn : Type := String → String → String

structure QARecord where
  question : String
  answer : String
deriving DecidableEq

structure OutputDoc where
  questions : List QARecord
deriving DecidableEq

def tesseractMissingMsg : String :=
  "Tesseract OCR binary not found on PATH. Install it and try again. See https://tesseract-ocr.github.io/tessdoc/Installation.html for instructions."

def ocrNotFoundMsg : String :=
  "Tesseract OCR is not installed or not on PATH. Install it from https://tesseract-ocr.github.io/tessdoc/Installation.html"

def noImagesMsg : String := "No matching image files found."

/-- Embedding of `run_ocr`: with an engine present the oracle's text is
returned; with no engine the `TesseractNotFoundError` handler raises
`SystemExit` with a remediation message. -/
def run_ocr (engine : Option OcrFn) (image_path : String) (language : String) :
    Except String String :=
  match engine with
  | some f => Except.ok (f image_path language)
  | none => Except.error ocrNotFoundMsg

/-- Embedding of `ensure_tesseract_available`: `shutil.which("tesseract")`
succeeds exactly when the engine is present. -/
def ensure_tesseract_available (engine : Option OcrFn) : Except String Unit :=
  if engine.isSome then Except.ok () else Except.error tesseractMissingMsg

/-- Embedding of `build_questions`: OCR each image in order and split the
text, propagating any OCR failure. -/
def build_questions (engine : Option OcrFn) :
    List String → String → Except String (List QARecord)
  | [], _ => Except.ok []
  | image_path :: rest, language =>
    match run_ocr engine image_path language with
    | Except.error e => Except.error e
    | Except.ok text =>
      match build_questions engine rest language with
      | Except.error e => Except.error e
      | Except.ok qs =>
        Except.ok (⟨(split_question_answer text).1, (split_question_answer text).2⟩ :: qs)

/-- Embedding of `main` after argument parsing: check the engine, collect
the image paths, fail when none matched, and otherwise build the output
document. -/
def main' (engine : Option OcrFn) (fs : FS) (inputs : List String) (language : String) :
    Except String OutputDoc :=
  match ensure_tesseract_available engine with
  | Except.error e => Except.error e
  | Except.ok _ =>
    let image_paths := collect_image_paths fs inputs
    if image_paths.isEmpty then Except.error noImagesMsg
    else
      match build_questions engine image_paths language with
      | Except.error e => Except.error e
      | Except.ok questions => Except.ok ⟨questions⟩

/-! ## Theorems -/

theorem pyStrip_data (s : String) : (pyStrip s).data = stripL s.data := rfl

theorem pyStrip_mk (l : List Char) : pyStrip ⟨l⟩ = ⟨stripL l⟩ := rfl

theorem dropWhile_eq_cons_head {p : Char → Bool} :
    ∀ (l : List Char) (x : Char) (xs : List Char), l.dropWhile p = x :: xs → p x = false := by
  intro l x xs h
  induction l with
  | nil => simp at h
  | cons a as ih =>
    rw [List.dropWhile_cons] at h
    by_cases ha : p a
    · rw [if_pos ha] at h; exact ih h
    · rw [if_neg ha] at h
      cases h
      exact Bool.of_not_eq_true ha

theorem dropWhile_stripL (l : List Char) : (stripL l).dropWhile pySpace = stripL l := by
  unfold stripL
  cases h : l.dropWhile pySpace with
  | nil => simp
  | cons x xs =>
    have hx : pySpace x = false := dropWhile_eq_cons_head l x xs h
    rw [List.reverse_cons, List.dropWhile_append]
    by_cases he : (xs.reverse.dropWhile pySpace).isEmpty
    · rw [if_pos he]
      simp [List.dropWhile_cons, hx]
    · rw [if_neg he, List.reverse_append]
      simp [List.dropWhile_cons, hx]

theorem stripL_idem (l : List Char) : stripL (stripL l) = stripL l := by
  conv_lhs => rw [stripL, dropWhile_stripL]
  rw [stripL, List.reverse_reverse, List.dropWhile_idempotent]

theorem pyStrip_idem (s : String) : pyStrip (pyStrip s) = pyStrip s := by
  cases s with
  | mk l => rw [pyStrip_mk, pyStrip_mk, stripL_idem]

theorem stripL_subset {c : Char} {l : List Char} (h : c ∈ stripL l) : c ∈ l := by
  unfold stripL at h
  rw [List.mem_reverse] at h
  have h2 := (List.dropWhile_sublist _).subset h
  rw [List.mem_reverse] at h2
  exact (List.dropWhile_sublist _).subset h2

theorem splitlinesList_chars :
    ∀ cs, ∀ l ∈ splitlinesList cs, ∀ c ∈ l, lineBoundary c = false := by
  intro cs
  induction cs using splitlinesList.induct with
  | case1 => intro l hl; simp [splitlinesList] at hl
  | case2 cs ih =>
    intro l hl c hc
    simp only [splitlinesList, List.mem_cons] at hl
    rcases hl with rfl | hl
    · simp at hc
    · exact ih l hl c hc
  | case3 c cs h1 hb ih =>
    intro l hl d hd
    rw [splitlinesList] at hl
    case x_1 => exact h1
    rw [if_pos hb] at hl
    rcases List.mem_cons.mp hl with rfl | hl
    · simp at hd
    · exact ih l hl d hd
  | case4 c cs h1 hb hnil =>
    intro l hl d hd
    rw [splitlinesList] at hl
    case x_1 => exact h1
    rw [if_neg (by simp [hb]), hnil] at hl
    rcases List.mem_cons.mp hl with rfl | hl
    · rcases List.mem_singleton.mp hd with rfl
      exact Bool.of_not_eq_true hb
    · simp at hl
  | case5 c cs h1 hb l0 ls0 hcons ih =>
    intro l hl d hd
    rw [splitlinesList] at hl
    case x_1 => exact h1
    rw [if_neg (by simp [hb]), hcons] at hl
    rcases List.mem_cons.mp hl with rfl | hl
    · rcases List.mem_cons.mp hd with rfl | hd
      · exact Bool.of_not_eq_true hb
      · exact ih l0 (by rw [hcons]; exact List.mem_cons_self _ _) d hd
    · exact ih l (by rw [hcons]; exact List.mem_cons_of_mem _ hl) d hd

theorem splitlines_chars {text : String} {l : String} (hl : l ∈ splitlines text) :
    ∀ c ∈ l.data, lineBoundary c = false := by
  intro c hc
  rcases List.mem_map.mp hl with ⟨l0, hl0, rfl⟩
  exact splitlinesList_chars _ l0 hl0 c hc

theorem joinSp_chars {ls : List String} {c : Char} (hc : c ∈ (joinSp ls).data) :
    c = ' ' ∨ ∃ s ∈ ls, c ∈ s.data := by
  induction ls with
  | nil => simp [joinSp, List.intercalate] at hc
  | cons a t ih =>
    cases t with
    | nil =>
      simp only [joinSp, List.map_cons, List.map_nil, List.intercalate,
        List.intersperse_single, List.flatten] at hc
      right
      exact ⟨a, List.mem_singleton.mpr rfl, by simpa using hc⟩
    | cons b t2 =>
      simp only [joinSp, List.map_cons, List.intercalate,
        List.intersperse_cons_cons, List.flatten_cons, List.mem_append] at hc
      rcases hc with hc | hc
      · right; exact ⟨a, List.mem_cons_self _ _, hc⟩
      rcases hc with hc | hc
      · left; exact List.mem_singleton.mp hc
      · have : c = ' ' ∨ ∃ s ∈ b :: t2, c ∈ s.data := by
          apply ih
          simp only [joinSp, List.map_cons, List.intercalate]
          exact hc
        rcases this with h | ⟨s, hs, hcs⟩
        · exact Or.inl h
        · exact Or.inr ⟨s, List.mem_cons_of_mem _ hs, hcs⟩

example : split_question_answer "Answer: 42" = ("", "42") := by decide

example : split_question_answer "ANSWER:42" = ("", "42") := by decide

example : split_question_answer "answer:42" = ("", "42") := by decide

example : split_question_answer "Q: Define entropy\nA measure of disorder" =
    ("Define entropy", "A measure of disorder") := by decide

example : split_question_answer "What is it?\nAnswer: 42\nreally" = ("What is it?", "42 really") := by decide

example : split_question_answer "  \n \t " = ("", "") := by decide

example : split_question_answer "hello" = ("hello", "") := by decide

example : split_question_answer "Q:\nrest" = ("Q:", "rest") := by decide

example : split_question_answer "Ans: \nmore" = ("", "more") := by decide

theorem procLines_mem {text : String} {l : String} (hl : l ∈ procLines text) :
    pyStrip l = l ∧ ∀ c ∈ l.data, lineBoundary c = false := by
  unfold procLines at hl
  have hl' := List.mem_of_mem_filter hl
  rcases List.mem_map.mp hl' with ⟨l0, hl0, rfl⟩
  refine ⟨pyStrip_idem l0, fun c hc => ?_⟩
  rw [pyStrip_data] at hc
  exact splitlines_chars hl0 c (stripL_subset hc)

theorem procLines_getD_chars (text : String) (i : Nat) :
    ∀ c ∈ ((procLines text).getD i "").data, lineBoundary c = false := by
  by_cases hi : i < (procLines text).length
  · rw [List.getD_eq_getElem _ _ hi]
    exact (procLines_mem (List.getElem_mem hi)).2
  · rw [List.getD_eq_default _ _ (Nat.le_of_not_lt hi)]
    intro c hc
    simp at hc

theorem goodStr_empty : GoodStr "" :=
  ⟨rfl, fun c hc => absurd hc (by simp [String.data])⟩

theorem goodStr_pyStrip {s : String} (h : ∀ c ∈ s.data, lineBoundary c = false) :
    GoodStr (pyStrip s) :=
  ⟨pyStrip_idem s, fun c hc => h c (stripL_subset (by rw [pyStrip_data] at hc; exact hc))⟩

theorem joinSp_boundary_free {parts : List String}
    (h : ∀ s ∈ parts, ∀ c ∈ s.data, lineBoundary c = false) :
    ∀ c ∈ (joinSp parts).data, lineBoundary c = false := by
  intro c hc
  rcases joinSp_chars hc with rfl | ⟨s, hs, hcs⟩
  · decide
  · exact h s hs c hcs

theorem strDrop_chars {s : String} {n : Nat} {c : Char} (hc : c ∈ (strDrop s n).data) :
    c ∈ s.data :=
  (List.drop_sublist n s.data).subset hc

theorem goodStr_first_fragment (text : String) (i : Nat) (n : Nat) :
    GoodStr (pyStrip (strDrop ((procLines text).getD i "") n)) :=
  goodStr_pyStrip (fun c hc => procLines_getD_chars text i c (strDrop_chars hc))

theorem goodStr_getD (text : String) (i : Nat) : GoodStr ((procLines text).getD i "") := by
  by_cases hi : i < (procLines text).length
  · rw [List.getD_eq_getElem _ _ hi]
    have h := procLines_mem (List.getElem_mem hi)
    exact ⟨h.1, h.2⟩
  · rw [List.getD_eq_default _ _ (Nat.le_of_not_lt hi)]
    exact goodStr_empty

theorem goodStr_join_of_subset (text : String) {parts : List String}
    (hsub : ∀ s ∈ parts, s = "" ∨ s ∈ procLines text ∨
      ∃ i n, s = pyStrip (strDrop ((procLines text).getD i "") n)) :
    GoodStr (pyStrip (joinSp parts)) := by
  apply goodStr_pyStrip
  apply joinSp_boundary_free
  intro s hs c hc
  rcases hsub s hs with rfl | hmem | ⟨i, n, rfl⟩
  · simp [String.data] at hc
  · exact (procLines_mem hmem).2 c hc
  · exact (goodStr_first_fragment text i n).2 c hc

theorem mem_condCons_append {x : String} {P : Prop} [Decidable P] {rest : List String}
    {s : String} (hs : s ∈ (if P then [] else [x]) ++ rest) : s = x ∨ s ∈ rest := by
  rcases List.mem_append.mp hs with h | h
  · split at h
    · simp at h
    · exact Or.inl (List.mem_singleton.mp h)
  · exact Or.inr h

theorem split_outputs_good (text : String) :
    GoodStr (split_question_answer text).1 ∧ GoodStr (split_question_answer text).2 := by
  simp only [split_question_answer]
  split
  · exact ⟨goodStr_empty, goodStr_empty⟩
  · split
    · refine ⟨goodStr_join_of_subset text ?_, goodStr_join_of_subset text ?_⟩
      · intro s hs
        exact Or.inr (Or.inl (List.mem_of_mem_take hs))
      · intro s hs
        rcases mem_condCons_append hs with rfl | hs
        · exact Or.inr (Or.inr ⟨_, _, rfl⟩)
        · exact Or.inr (Or.inl (List.mem_of_mem_drop hs))
    · split
      · constructor
        · split
          · split
            · exact goodStr_getD text 0
            · exact goodStr_first_fragment text 0 _
          · exact goodStr_getD text 0
        · exact goodStr_join_of_subset text
            (fun s hs => Or.inr (Or.inl (List.mem_of_mem_drop hs)))
      · exact ⟨goodStr_getD text 0, goodStr_empty⟩

theorem findAnswerIdx_of_first {ls : List String} :
    ∀ {i : Nat} {m : String}, i < ls.length → findAnswerMarker (ls.getD i "") = some m →
      (∀ j, j < i → findAnswerMarker (ls.getD j "") = none) →
      findAnswerIdx ls = some (i, m) := by
  induction ls with
  | nil => intro i m hi _ _; simp at hi
  | cons a rest ih =>
    intro i m hi hm hprev
    cases i with
    | zero =>
      rw [findAnswerIdx]
      rw [List.getD_cons_zero] at hm
      rw [hm]
    | succ k =>
      have h0 : findAnswerMarker a = none := by
        have := hprev 0 (Nat.succ_pos k)
        rwa [List.getD_cons_zero] at this
      rw [findAnswerIdx, h0]
      have hrec := ih (i := k) (m := m) (by simpa using hi)
        (by rwa [List.getD_cons_succ] at hm)
        (fun j hj => by
          have := hprev (j + 1) (Nat.succ_lt_succ hj)
          rwa [List.getD_cons_succ] at this)
      rw [hrec]

theorem findAnswerIdx_eq_none {ls : List String} (h : ∀ l ∈ ls, findAnswerMarker l = none) :
    findAnswerIdx ls = none := by
  induction ls with
  | nil => rfl
  | cons a rest ih =>
    rw [findAnswerIdx, h a (List.mem_cons_self _ _),
      ih (fun l hl => h l (List.mem_cons_of_mem _ hl))]

theorem strLower_empty : strLower "" = "" := rfl

theorem getD_map_strLower (ls : List String) (i : Nat) :
    (ls.map strLower).getD i "" = strLower (ls.getD i "") := by
  by_cases hi : i < ls.length
  · rw [List.getD_eq_getElem _ _ (by simpa using hi), List.getD_eq_getElem _ _ hi,
      List.getElem_map]
  · rw [List.getD_eq_default _ _ (by simpa using Nat.le_of_not_lt hi),
      List.getD_eq_default _ _ (Nat.le_of_not_lt hi), strLower_empty]

theorem procLines_ne_nil_of_lt {text : String} {i : Nat}
    (hi : i < (procLines text).length) : (procLines text).isEmpty = false := by
  cases h : procLines text with
  | nil => rw [h] at hi; simp at hi
  | cons a rest => rfl

/-- C1: when some non-empty trimmed line, scanned from the top, starts
(case-insensitively) with an answer marker — the first matching line at
index `i`, with markers tried in priority order at each line —
`split_question_answer` returns the lines before `i` joined by single
spaces as the question, and the marker-stripped remainder of line `i`
(omitted entirely when it strips to empty) followed by the lines after
`i`, joined by single spaces, as the answer, both trimmed; in particular
`"Answer: 42"`, `"ANSWER:42"` and `"answer:42"` each yield answer
`"42"`. -/
theorem C1_answer_marker_split (text : String) (i : Nat) (m : String)
    (hi : i < (procLines text).length)
    (hm : findAnswerMarker (strLower ((procLines text).getD i "")) = some m)
    (hprev : ((List.range i).all
      fun j => findAnswerMarker (strLower ((procLines text).getD j "")) == none) = true) :
    split_question_answer text =
      (pyStrip (joinSp ((procLines text).take i)),
       pyStrip (joinSp
         ((if pyStrip (strDrop ((procLines text).getD i "") m.length) == "" then []
           else [pyStrip (strDrop ((procLines text).getD i "") m.length)]) ++
          (procLines text).drop (i + 1)))) ∧
    split_question_answer "Answer: 42" = ("", "42") ∧
    split_question_answer "ANSWER:42" = ("", "42") ∧
    split_question_answer "answer:42" = ("", "42") := by
  refine ⟨?_, by decide, by decide, by decide⟩
  have hprev' : ∀ j, j < i → findAnswerMarker (strLower ((procLines text).getD j "")) = none := by
    intro j hj
    have := List.all_eq_true.mp hprev j (List.mem_range.mpr hj)
    exact eq_of_beq this
  have hfind : findAnswerIdx ((procLines text).map strLower) = some (i, m) := by
    apply findAnswerIdx_of_first (by simpa using hi)
    · rwa [getD_map_strLower]
    · intro j hj
      rw [getD_map_strLower]
      exact hprev' j hj
  simp only [split_question_answer]
  rw [if_neg (by rw [procLines_ne_nil_of_lt hi]; exact Bool.false_ne_true), hfind]

/-- C2: when the text has more than one non-empty trimmed line and no line
starts (case-insensitively) with an answer marker,
`split_question_answer` returns as question the first line with the first
matching question marker stripped together with surrounding whitespace
(keeping the original line when stripping leaves the empty string, and
when no question marker matches), and as answer the remaining lines
joined by single spaces; e.g. `"Q: Define entropy\nA measure of
disorder"` yields `("Define entropy", "A measure of disorder")`. -/
theorem C2_question_fallback (text : String)
    (hlen : 1 < (procLines text).length)
    (hnone : ((procLines text).all fun l => findAnswerMarker (strLower l) == none) = true) :
    split_question_answer text =
      ((match question_markers.find?
          (fun marker => startswith (strLower ((procLines text).getD 0 "")) marker) with
        | some marker =>
          if pyStrip (strDrop ((procLines text).getD 0 "") marker.length) == "" then
            (procLines text).getD 0 ""
          else pyStrip (strDrop ((procLines text).getD 0 "") marker.length)
        | none => (procLines text).getD 0 ""),
       pyStrip (joinSp ((procLines text).drop 1))) ∧
    split_question_answer "Q: Define entropy\nA measure of disorder" =
      ("Define entropy", "A measure of disorder") := by
  refine ⟨?_, by decide⟩
  have hfind : findAnswerIdx ((procLines text).map strLower) = none := by
    apply findAnswerIdx_eq_none
    intro l' hl'
    rcases List.mem_map.mp hl' with ⟨l, hl, rfl⟩
    exact eq_of_beq (List.all_eq_true.mp hnone l hl)
  have hne : (procLines text).isEmpty = false :=
    procLines_ne_nil_of_lt (Nat.lt_of_le_of_lt (Nat.zero_le 1) hlen)
  simp only [split_question_answer]
  rw [if_neg (by rw [hne]; exact Bool.false_ne_true), hfind, if_pos hlen]

/-- C9: a text with no non-empty trimmed line splits to `("", "")`, and a
text with exactly one non-empty trimmed line that no answer marker
matches splits to `(that line, "")`, with no question-marker stripping
applied. -/
theorem C9_degenerate_cases (text : String) :
    (procLines text = [] → split_question_answer text = ("", "")) ∧
    (∀ l, procLines text = [l] → findAnswerMarker (strLower l) = none →
      split_question_answer text = (l, "")) := by
  constructor
  · intro h
    simp only [split_question_answer, h]
    rfl
  · intro l hl hm
    have hfind : findAnswerIdx ([l].map strLower) = none := by
      exact findAnswerIdx_eq_none (by
        intro x hx
        rcases List.mem_map.mp hx with ⟨y, hy, rfl⟩
        rcases List.mem_singleton.mp hy with rfl
        exact hm)
    simp only [split_question_answer, hl]
    rw [if_neg (by simp), hfind]
    simp

/-- Witness for C1 at a concrete input. -/
theorem C1_witness :
    split_question_answer "What is it?\nANS: 42\nreally" = ("What is it?", "42 really") := by
  have h := (C1_answer_marker_split "What is it?\nANS: 42\nreally" 1 "ans:"
    (by decide) (by decide) (by decide)).1
  rw [h]
  decide

/-- Witness for C2 at a concrete input. -/
theorem C2_witness :
    split_question_answer "QUESTION: What is entropy?\nA measure" =
      ("What is entropy?", "A measure") := by
  have h := (C2_question_fallback "QUESTION: What is entropy?\nA measure"
    (by decide) (by decide)).1
  rw [h]
  decide

/-- Witness for C9 at concrete inputs. -/
theorem C9_witness :
    split_question_answer " \n\t" = ("", "") ∧
    split_question_answer "Just one line" = ("Just one line", "") :=
  ⟨(C9_degenerate_cases " \n\t").1 (by decide),
   (C9_degenerate_cases "Just one line").2 "Just one line" (by decide) (by decide)⟩

/-- C10: both strings returned by `split_question_answer` are fully
trimmed (each equals itself stripped of leading and trailing whitespace)
and contain no newline characters, on every return path. -/
theorem C10_output_invariant (text : String) :
    pyStrip (split_question_answer text).1 = (split_question_answer text).1 ∧
    pyStrip (split_question_answer text).2 = (split_question_answer text).2 ∧
    ((split_question_answer text).1.data.all fun c => !(c == '\n' || c == '\x0d')) = true ∧
    ((split_question_answer text).2.data.all fun c => !(c == '\n' || c == '\x0d')) = true := by
  obtain ⟨⟨hq1, hq2⟩, ha1, ha2⟩ := split_outputs_good text
  have conv : ∀ (s : String), (∀ c ∈ s.data, lineBoundary c = false) →
      (s.data.all fun c => !(c == '\n' || c == '\x0d')) = true := by
    intro s h
    rw [List.all_eq_true]
    intro c hc
    have hb := h c hc
    rcases eq_or_ne c '\n' with rfl | h1
    · exact absurd hb (by decide)
    rcases eq_or_ne c '\x0d' with rfl | h2
    · exact absurd hb (by decide)
    · simp [h1, h2]
  exact ⟨hq1, ha1, conv _ hq2, conv _ ha2⟩

example : pathSuffix "d/scan-1.PNG" = ".PNG" := by decide

example : pathSuffix "a/.hidden" = "" := by decide

example : pathSuffix "a/b.tar.gz" = ".gz" := by decide

example : pathSuffix "noext" = "" := by decide

example : pathSuffix "a/trailing." = "" := by decide

/-- C4: collection distributes over concatenation of the input list —
each input contributes its own sub-sequence in order — and no
deduplication occurs: occurrence counts add up, so a file matched by two
different inputs appears twice. -/
theorem C4_concat_no_dedup (fs : FS) (xs ys : List String) :
    collect_image_paths fs (xs ++ ys) =
      collect_image_paths fs xs ++ collect_image_paths fs ys ∧
    ∀ p : String, (collect_image_paths fs (xs ++ ys)).count p =
      (collect_image_paths fs xs).count p + (collect_image_paths fs ys).count p := by
  have happ : collect_image_paths fs (xs ++ ys) =
      collect_image_paths fs xs ++ collect_image_paths fs ys :=
    List.flatMap_append ..
  exact ⟨happ, fun p => by rw [happ, List.count_append]⟩

/-- C5 counterexample: the directory branch checks only the extension of
the entries `rglob` yields, so a subdirectory named `d/x.png` is emitted
even though it is not a regular file. -/
theorem C5_counterexample :
    "d/x.png" ∈ collect_image_paths dirNamedLikeImageFS ["d"] ∧
    dirNamedLikeImageFS.is_file "d/x.png" = false := by decide

/-- C5 (amended): every path emitted by `collect_image_paths`, through any
of the three branches, has an extension in the recognized set compared
case-insensitively; regular-file-ness, however, is only guaranteed by the
file branch — the directory and glob branches filter by extension alone
and can emit non-file paths. -/
theorem C5_extension_always (fs : FS) (inputs : List String) :
    ((collect_image_paths fs inputs).all hasImageExtension) = true := by
  rw [List.all_eq_true]
  intro p hp
  unfold collect_image_paths at hp
  rcases List.mem_flatMap.mp hp with ⟨raw, _, hp⟩
  split at hp
  · rcases List.mem_singleton.mp hp with rfl
    rename_i h
    have h2 : fs.is_file p = true ∧ hasImageExtension p = true := by simpa using h
    exact h2.2
  · split at hp
    · exact List.of_mem_filter hp
    · exact List.of_mem_filter hp

/-- C6 counterexample: for the realizable directory `d` containing
subdirectory `scan` (with `scan/b.png` inside) and file `scan-1.png`, the
code emits `d/scan-1.png` before `d/scan/b.png` (full-path-string order:
`'-'` sorts before `'/'`), while a traversal lexicographically sorted at
each recursion level visits the `scan` subtree first. -/
theorem C6_counterexample :
    collect_image_paths scanFS ["d"] = ["d/scan-1.png", "d/scan/b.png"] ∧
    ((specDirOrder scanTreeEntries).map (renderPath "d")).filter hasImageExtension =
      ["d/scan/b.png", "d/scan-1.png"] ∧
    collect_image_paths scanFS ["d"] ≠
      ((specDirOrder scanTreeEntries).map (renderPath "d")).filter hasImageExtension := by
  exact ⟨by decide, by decide, by decide⟩

/-- C6 (amended): for an input naming an existing directory, the emitted
paths are exactly the recognized-extension entries enumerated under it,
sorted lexicographically by the complete path string — not sorted
per recursion level; the two orders differ when a sibling's name extends
a directory's name with a character that sorts before the path
separator. -/
theorem C6_dir_string_sorted (fs : FS) (d : String)
    (hfile : fs.is_file d = false) (hdir : fs.is_dir d = true) :
    List.Sorted pathLe (collect_image_paths fs [d]) ∧
    List.Perm (collect_image_paths fs [d]) ((fs.rglob d).filter hasImageExtension) := by
  have hc : collect_image_paths fs [d] = (pySorted (fs.rglob d)).filter hasImageExtension := by
    unfold collect_image_paths
    simp [hfile, hdir]
  rw [hc]
  constructor
  · exact (List.sorted_insertionSort pathLe (fs.rglob d)).filter _
  · exact (List.perm_insertionSort pathLe (fs.rglob d)).filter _

/-- Witness for the amended C6 at a concrete filesystem. -/
theorem C6_witness :
    List.Sorted pathLe (collect_image_paths scanFS ["d"]) ∧
    List.Perm (collect_image_paths scanFS ["d"])
      ((scanFS.rglob "d").filter hasImageExtension) :=
  C6_dir_string_sorted scanFS "d" rfl rfl

theorem build_questions_ok (f : OcrFn) (ps : List String) (lang : String) :
    build_questions (some f) ps lang =
      Except.ok (ps.map fun p =>
        (⟨(split_question_answer (f p lang)).1, (split_question_answer (f p lang)).2⟩ :
          QARecord)) := by
  induction ps with
  | nil => rfl
  | cons p rest ih =>
    rw [build_questions]
    simp only [run_ocr, ih, List.map_cons]

/-- C3: with the OCR engine available, `build_questions` succeeds and
produces exactly one QA record per collected image path, in the same
order, the record at position `i` being the splitter applied to the OCR
text of the `i`-th path (an order-preserving bijection between paths and
records). -/
theorem C3_record_per_image (f : OcrFn) (ps : List String) (lang : String) :
    build_questions (some f) ps lang =
      Except.ok (ps.map fun p =>
        (⟨(split_question_answer (f p lang)).1, (split_question_answer (f p lang)).2⟩ :
          QARecord)) :=
  build_questions_ok f ps lang

/-- C7: a missing OCR engine is detected once, up front — `main'` aborts
with the remediation message before consulting the filesystem or
processing any image (the result does not depend on `fs`, `inputs` or the
language), and no output document is produced. -/
theorem C7_engine_unavailable (fs : FS) (inputs : List String) (lang : String) :
    main' none fs inputs lang = Except.error tesseractMissingMsg := rfl

/-- C8: with the OCR engine available, the run fails — with the
no-matching-files message and no output — exactly when the aggregate
collection over all inputs is empty; an individual input matching nothing
raises no error, as only the aggregate emptiness test can fail the run. -/
theorem C8_abort_iff_empty (f : OcrFn) (fs : FS) (inputs : List String) (lang : String) :
    main' (some f) fs inputs lang =
      (if collect_image_paths fs inputs = [] then Except.error noImagesMsg
       else Except.ok ⟨(collect_image_paths fs inputs).map fun p =>
         ⟨(split_question_answer (f p lang)).1, (split_question_answer (f p lang)).2⟩⟩) := by
  by_cases h : collect_image_paths fs inputs = []
  · simp [main', ensure_tesseract_available, h]
  · simp [main', ensure_tesseract_available, h, build_questions_ok]
